import Mathlib

/-!
Verification development for the activation-steering notebooks
(`pytorch_hooks.ipynb`, `custom_wrapper.ipynb`, `transformer_lens.ipynb`,
`bias_editing.ipynb`).

The notebooks intercept one internal computation point of a transformer
("the output of block 5", or "the output of `ln_1` in block 5"), either to
record its output tensor (capture) or to replace it by
`output + coefficient * steering_vec` (injection), and then run greedy
autoregressive generation.  We embed each interception mechanism shallowly:

* hidden activations become integer vectors `Fin n → ℤ` (the exact value of the
  arithmetic is irrelevant to the interception/lifecycle claims; the
  floating-point normalization of the steering vector is modelled separately
  over `ℝ` at the end of the file);
* the parts of the pretrained model that the notebooks treat as a black box
  (everything before / after the interception point) become opaque fields of a
  model structure;
* greedy autoregressive generation (`model.generate(..., do_sample=False)`)
  becomes an iterated step function appending the argmax token of the logits of
  the current prefix.  Early stopping at the end-of-sequence token is not
  modelled; each modelled step produces exactly one token, which is how the
  per-token claims are phrased.
-/

namespace ActSteer

/-- A hidden activation vector of hidden dimension `n` (one sequence position;
the notebooks intercept with batch size 1). -/
abbrev Vec (n : ℕ) : Type := Fin n → ℤ

/-- Iterate a step function `k` times from a start state.  This is the
autoregressive loop skeleton shared by all notebooks. -/
def iterSteps {σ : Type _} (step : σ → σ) : σ → ℕ → σ
  | st, 0 => st
  | st, k + 1 => iterSteps step (step st) k

/-- Run `k` iterations of `step`, recording the event `ev` observed at each
state just before the step executes, in execution order. -/
def traceRun {σ E : Type _} (step : σ → σ) (ev : σ → E) : σ → ℕ → List E
  | _, 0 => []
  | st, k + 1 => ev st :: traceRun step ev (step st) k

/-- Index of the first maximal entry of a logits list (greedy decoding,
`torch.argmax`). -/
def argmaxIdx (l : List ℤ) : ℕ :=
  (l.foldl
    (fun acc x =>
      if x > acc.2.1 then (acc.2.2, x, acc.2.2 + 1) else (acc.1, acc.2.1, acc.2.2 + 1))
    (0, l.headD 0, 0)).1

/-- One greedy decoding step for a forward function `f` from token prefixes to
logits: append the argmax token. -/
def genStepF (f : List ℕ → List ℤ) (toks : List ℕ) : List ℕ :=
  toks ++ [argmaxIdx (f toks)]

/-- Greedy generation of `k` new tokens with forward function `f`
(`model.generate(**inputs, max_new_tokens=k, do_sample=False)`). -/
def generateF (f : List ℕ → List ℤ) (toks : List ℕ) (k : ℕ) : List ℕ :=
  iterSteps (genStepF f) toks k

theorem iterSteps_succ_right {σ : Type _} (step : σ → σ) :
    ∀ (k : ℕ) (st : σ), iterSteps step st (k + 1) = step (iterSteps step st k)
  | 0, _ => rfl
  | k + 1, st => iterSteps_succ_right step k (step st)

theorem traceRun_length {σ E : Type _} (step : σ → σ) (ev : σ → E) :
    ∀ (k : ℕ) (st : σ), (traceRun step ev st k).length = k
  | 0, _ => rfl
  | k + 1, st => by
      simpa [traceRun] using traceRun_length step ev k (step st)

theorem traceRun_get {σ E : Type _} (step : σ → σ) (ev : σ → E) :
    ∀ (k i : ℕ) (st : σ), i < k →
      (traceRun step ev st k)[i]? = some (ev (iterSteps step st i)) := by
  intro k
  induction k with
  | zero => intro i st h; omega
  | succ k ih =>
      intro i st h
      cases i with
      | zero => simp [traceRun, iterSteps]
      | succ i =>
          have hik : i < k := by omega
          simpa [traceRun, iterSteps] using ih i (step st) hik

theorem generateF_length (f : List ℕ → List ℤ) :
    ∀ (k : ℕ) (toks : List ℕ), (generateF f toks k).length = toks.length + k := by
  intro k
  induction k with
  | zero => intro toks; simp [generateF, iterSteps]
  | succ k ih =>
      intro toks
      have h := ih (genStepF f toks)
      simp only [generateF, iterSteps] at h ⊢
      rw [h]
      simp [genStepF]
      omega

theorem generateF_congr {f g : List ℕ → List ℤ} (h : ∀ t, f t = g t) :
    ∀ (k : ℕ) (toks : List ℕ), generateF f toks k = generateF g toks k := by
  intro k
  induction k with
  | zero => intro toks; rfl
  | succ k ih =>
      intro toks
      have hstep : genStepF f toks = genStepF g toks := by simp [genStepF, h toks]
      simp only [generateF, iterSteps] at ih ⊢
      rw [hstep]
      exact ih (genStepF g toks)

namespace PyHooks

/-! ## `pytorch_hooks.ipynb`

The intercepted module is `model.transformer.h[layer_id]`, a transformer
block whose output is a tuple; the first tuple entry is the activation tensor
and the rest (`output[1:]`) is other data that the hooks never touch.  We model
the block output as `Vec n × A` with `A` opaque.

A PyTorch forward hook receives the module output after the module ran and may
return a replacement output; returning `none` (Python `None`) leaves the output
unchanged.  `cache_hook` closes over a Python list `cache` it appends to, so a
hook is modelled as a function of the output and the current cache contents. -/

/-- The output of the intercepted transformer block: the activation tensor
paired with the untouched remainder of the output tuple. -/
abbrev BlockOut (n : ℕ) (A : Type) : Type := Vec n × A

/-- A PyTorch forward hook on the block: from the block output and the
closed-over cache list, produce an optional replacement output (`none` keeps
the original output) and the new cache contents. -/
def HookFn (n : ℕ) (A : Type) : Type :=
  BlockOut n A → List (Vec n) → Option (BlockOut n A) × List (Vec n)

/-- `cache_hook(cache)`: appends `output[0]` to the cache and returns `None`,
leaving the propagated output unchanged. -/
def cache_hook {n : ℕ} {A : Type} : HookFn n A :=
  fun output cache => (none, cache ++ [output.1])

/-- `act_add(steering_vec)`: returns
`(output[0] + steering_vec,) + output[1:]`, re-pairing the modified activation
with the untouched remainder of the tuple; the cache is not involved. -/
def act_add {n : ℕ} {A : Type} (sv : Vec n) : HookFn n A :=
  fun output cache => (some (output.1 + sv, output.2), cache)

/-- The pretrained model, split at the intercepted block
`model.transformer.h[layer_id]`: `pre` is everything from the input tokens to
the input of that block, `blk` is the block itself, `post` is everything from
the block's activation output to the final logits. -/
structure SplitModel (n : ℕ) (A : Type) where
  pre : List ℕ → Vec n
  blk : Vec n → BlockOut n A
  post : Vec n → List ℤ

/-- PyTorch hook application semantics: with no hook registered the output
passes through; a registered hook runs and its non-`None` result replaces the
output. -/
def applyHook {n : ℕ} {A : Type} (h : Option (HookFn n A)) (out : BlockOut n A)
    (cache : List (Vec n)) : BlockOut n A × List (Vec n) :=
  match h with
  | none => (out, cache)
  | some f => ((f out cache).1.getD out, (f out cache).2)

/-- One full forward pass of the model with the hook state `h` attached at the
intercepted block, returning the logits and the cache contents. -/
def forwardH {n : ℕ} {A : Type} (M : SplitModel n A) (h : Option (HookFn n A))
    (cache : List (Vec n)) (toks : List ℕ) : List ℤ × List (Vec n) :=
  let raw := M.blk (M.pre toks)
  let r := applyHook h raw cache
  (M.post r.1.1, r.2)

/-- `module.register_forward_hook(f)`: the hook becomes attached (the
notebooks keep at most one hook attached at a time). -/
def register_forward_hook {n : ℕ} {A : Type} (f : HookFn n A)
    (_s : Option (HookFn n A)) : Option (HookFn n A) := some f

/-- `handle.remove()`: the hook is detached. -/
def handleRemove {n : ℕ} {A : Type} (_s : Option (HookFn n A)) :
    Option (HookFn n A) := none

/-- Greedy generation of `k` tokens with hook state `h` attached: every forward
pass of the decoding loop runs through the hooked block. -/
def generate {n : ℕ} {A : Type} (M : SplitModel n A) (h : Option (HookFn n A))
    (toks : List ℕ) (k : ℕ) : List ℕ :=
  generateF (fun t => (forwardH M h [] t).1) toks k

/-- The interception events of a `k`-token hooked generation run: for each
decoding step, in order, the raw block output of that step and the value the
hook makes propagate onward. -/
def interceptLog {n : ℕ} {A : Type} (M : SplitModel n A) (sv : Vec n)
    (toks : List ℕ) (k : ℕ) : List (BlockOut n A × BlockOut n A) :=
  traceRun (genStepF fun t => (forwardH M (some (act_add sv)) [] t).1)
    (fun t =>
      ((M.blk (M.pre t)), (applyHook (some (act_add sv)) (M.blk (M.pre t)) []).1))
    toks k

/-- A hook whose returned replacement equals the original output does not
change the generated tokens. -/
theorem generate_passive {n : ℕ} {A : Type} (M : SplitModel n A) (f : HookFn n A)
    (hf : ∀ out cache, ((f out cache).1).getD out = out)
    (toks : List ℕ) (k : ℕ) :
    generate M (some f) toks k = generate M none toks k :=
  generateF_congr (fun t => by simp [forwardH, applyHook, hf]) k toks

end PyHooks

namespace Wrapper

/-! ## `custom_wrapper.ipynb`

`WrappedModule` wraps `model.transformer.h[layer_id]`.  Its `forward` stores
the wrapped submodule's unmodified output in `self.output` and, if a steering
vector is set, returns the steered tuple instead of the stored tuple.
Mutation of `self.output` is modelled by returning the updated wrapper next to
the returned value. -/

/-- The wrapper object: the wrapped submodule, the stored output of the most
recent forward call (initially `None`), and the optional steering vector. -/
structure WrappedModule (n : ℕ) (A : Type) where
  module : Vec n → PyHooks.BlockOut n A
  output : Option (PyHooks.BlockOut n A)
  steering_vec : Option (Vec n)

/-- `WrappedModule.forward`: run the wrapped module, overwrite `self.output`
with its (unmodified) result, and return either the steered tuple
`(output[0] + steering_vec,) + output[1:]` or the unmodified tuple. -/
def WrappedModule.forward {n : ℕ} {A : Type} (w : WrappedModule n A) (x : Vec n) :
    WrappedModule n A × PyHooks.BlockOut n A :=
  let out := w.module x
  let w2 : WrappedModule n A := { w with output := some out }
  match w.steering_vec with
  | some sv => (w2, (out.1 + sv, out.2))
  | none => (w2, out)

/-- `model.transformer.h[layer_id] = WrappedModule(model.transformer.h[layer_id])`:
a freshly constructed wrapper. -/
def wrapModule {n : ℕ} {A : Type} (m : Vec n → PyHooks.BlockOut n A) :
    WrappedModule n A :=
  ⟨m, none, none⟩

/-- One forward pass of the whole model with the wrapper installed at the
intercepted block, returning the updated wrapper and the logits. -/
def forwardW {n : ℕ} {A : Type} (M : PyHooks.SplitModel n A) (w : WrappedModule n A)
    (toks : List ℕ) : WrappedModule n A × List ℤ :=
  let r := w.forward (M.pre toks)
  (r.1, M.post r.2.1)

/-- One greedy decoding step with the wrapper installed, threading the wrapper
state (its `output` field mutates on every forward pass). -/
def genStepW {n : ℕ} {A : Type} (M : PyHooks.SplitModel n A)
    (s : WrappedModule n A × List ℕ) : WrappedModule n A × List ℕ :=
  let r := forwardW M s.1 s.2
  (r.1, s.2 ++ [argmaxIdx r.2])

/-- Greedy generation of `k` tokens with the wrapper installed. -/
def generateW {n : ℕ} {A : Type} (M : PyHooks.SplitModel n A) (w : WrappedModule n A)
    (toks : List ℕ) (k : ℕ) : WrappedModule n A × List ℕ :=
  iterSteps (genStepW M) (w, toks) k

end Wrapper

namespace TL

/-! ## `transformer_lens.ipynb`

The interception point is the named probe point `blocks.5.hook_resid_post`,
whose value is a bare activation tensor.  `model.add_hook(name, hook)` attaches
a hook that returns the replacement activation; `model.reset_hooks()` removes
all hooks. -/

/-- A TransformerLens hook at `hook_resid_post`: activation in, replacement
activation out. -/
def TLHook (n : ℕ) : Type := Vec n → Vec n

/-- `act_add(steering_vec)` from `transformer_lens.ipynb`: the hook returns
`activation + steering_vec` (a bare tensor, no tuple). -/
def act_add {n : ℕ} (sv : Vec n) : TLHook n :=
  fun activation => activation + sv

/-- The hooked transformer, split at `blocks.{layer_id}.hook_resid_post`. -/
structure TLModel (n : ℕ) where
  pre : List ℕ → Vec n
  post : Vec n → List ℤ

/-- Value propagated from the probe point under hook state `h`. -/
def applyTL {n : ℕ} (h : Option (TLHook n)) (v : Vec n) : Vec n :=
  match h with
  | none => v
  | some f => f v

/-- One forward pass with hook state `h` attached at the probe point. -/
def TLModel.fwd {n : ℕ} (M : TLModel n) (h : Option (TLHook n)) (toks : List ℕ) :
    List ℤ :=
  M.post (applyTL h (M.pre toks))

/-- `model.add_hook(name=cache_name, hook=f)`. -/
def add_hook {n : ℕ} (f : TLHook n) (_s : Option (TLHook n)) : Option (TLHook n) :=
  some f

/-- `model.reset_hooks()`: every hook is removed. -/
def reset_hooks {n : ℕ} (_s : Option (TLHook n)) : Option (TLHook n) := none

/-- `model.generate(test_sentence, max_new_tokens=k, do_sample=False)` with
hook state `h` attached. -/
def generateTL {n : ℕ} (M : TLModel n) (h : Option (TLHook n)) (toks : List ℕ)
    (k : ℕ) : List ℕ :=
  generateF (M.fwd h) toks k

end TL

namespace BiasEdit

/-! ## `bias_editing.ipynb`

The interception point is `model.transformer.h[layer_id].ln_1`, whose output is
a bare tensor feeding the Conv1D module `attn.c_attn`, `c_attn(x) = x·W + b`.
`change_bias_attn` replaces the bias by `c_attn(steering_vec)` (the current
affine map applied to the steering vector); `reset_bias_attn` restores a saved
bias.  The alternative call-time mechanism is a baukit `Trace` on `ln_1` with
`edit_output=act_add(coeff*steering_vec)`, where this notebook's `act_add`
returns `output + steering_vec` (the layernorm output is not a tuple). -/

/-- The `attn.c_attn` Conv1D module: an affine map `x ↦ x·W + b` with a
mutable bias parameter. -/
structure Conv1D (nIn nOut : ℕ) where
  weight : Matrix (Fin nIn) (Fin nOut) ℤ
  bias : Fin nOut → ℤ

/-- Calling the Conv1D module: `c_attn(x) = x·W + b`. -/
def Conv1D.call {nIn nOut : ℕ} (c : Conv1D nIn nOut) (x : Fin nIn → ℤ) :
    Fin nOut → ℤ :=
  Matrix.vecMul x c.weight + c.bias

/-- `change_bias_attn(model, layer_id, steering_vec)`: the new bias is
`c_attn(steering_vec)`, i.e. the current affine map applied to the vector. -/
def change_bias_attn {nIn nOut : ℕ} (c : Conv1D nIn nOut) (sv : Fin nIn → ℤ) :
    Conv1D nIn nOut :=
  { c with bias := c.call sv }

/-- `reset_bias_attn(model, layer_id, org_bias)`: the bias parameter becomes
the saved original. -/
def reset_bias_attn {nIn nOut : ℕ} (c : Conv1D nIn nOut) (org_bias : Fin nOut → ℤ) :
    Conv1D nIn nOut :=
  { c with bias := org_bias }

/-- `act_add(steering_vec)` from `bias_editing.ipynb`: the layernorm output is
not a tuple, so the edit returns `output + steering_vec` directly. -/
def act_add {nIn : ℕ} (sv : Fin nIn → ℤ) : (Fin nIn → ℤ) → (Fin nIn → ℤ) :=
  fun output => output + sv

/-- baukit `Trace(module, edit_output=e)` semantics at the traced module: with
no `edit_output` the output passes through unchanged (and is retained for
inspection); with an edit function the edited value propagates. -/
def baukitRetain {V : Type _} (edit : Option (V → V)) (raw : V) : V :=
  match edit with
  | none => raw
  | some e => e raw

/-- The model split around the `ln_1 → c_attn` path of the target layer:
`pre` is everything from the tokens to the output of `ln_1` of layer
`layer_id`; `post` is everything from the `c_attn` output to the logits. -/
structure AttnModel (nIn nOut : ℕ) where
  pre : List ℕ → Fin nIn → ℤ
  cattn : Conv1D nIn nOut
  post : (Fin nOut → ℤ) → List ℤ

/-- One forward pass with a baukit `Trace(ln_1, edit_output=edit)` active:
returns the logits together with the `ln_1` value the trace retaining object
observed. -/
def AttnModel.fwdLN {nIn nOut : ℕ} (M : AttnModel nIn nOut)
    (edit : Option ((Fin nIn → ℤ) → (Fin nIn → ℤ))) (toks : List ℕ) :
    List ℤ × (Fin nIn → ℤ) :=
  let raw := M.pre toks
  let out := baukitRetain edit raw
  (M.post (M.cattn.call out), out)

/-- Greedy generation of `k` tokens with no trace active (the bias parameter
state lives inside `M.cattn`). -/
def generateAttn {nIn nOut : ℕ} (M : AttnModel nIn nOut) (toks : List ℕ) (k : ℕ) :
    List ℕ :=
  generateF (fun t => (M.fwdLN none t).1) toks k

/-- Greedy generation of `k` tokens with `Trace(ln_1, edit_output=act_add sv)`
active for the whole generation call. -/
def generateAttnInject {nIn nOut : ℕ} (M : AttnModel nIn nOut) (sv : Fin nIn → ℤ)
    (toks : List ℕ) (k : ℕ) : List ℕ :=
  generateF (fun t => (M.fwdLN (some (act_add sv)) t).1) toks k

end BiasEdit

namespace Deriv

/-! ## Steering-vector derivation (all notebooks)

`steering_vec = act_love[:,-1:,:] - act_hate[:,-1:,:]` followed by
`steering_vec /= steering_vec.norm()`.  A captured activation tensor has shape
(batch 1, sequence length, hidden dimension); we model it as a list of
sequence-position vectors `Fin n → ℝ`, so `[:,-1:,:]` is the last list entry.
The tensor arithmetic is modelled over `ℝ` (the notebooks compute in floating
point). -/

/-- `t[:,-1:,:]`: the activation vector at the last sequence position (batch
size is 1 in the notebooks; a captured tensor is nonempty, so the default for
the empty list is never reached). -/
def lastSlice {n : ℕ} (t : List (Fin n → ℝ)) : Fin n → ℝ :=
  t.getLastD 0

/-- `v.norm()`: the Euclidean (Frobenius) norm of the vector. -/
noncomputable def l2norm {n : ℕ} (v : Fin n → ℝ) : ℝ :=
  Real.sqrt (∑ i, v i ^ 2)

/-- The derived steering vector: last-position slice of the first capture minus
last-position slice of the second, divided componentwise by the Euclidean norm
of that difference. -/
noncomputable def steering_vec {n : ℕ} (act_a act_b : List (Fin n → ℝ)) :
    Fin n → ℝ :=
  fun i =>
    (lastSlice act_a - lastSlice act_b) i / l2norm (lastSlice act_a - lastSlice act_b)

/-- Scalar division as `torch` float tensors perform it: dividing by zero does
not raise; it yields a non-finite float (NaN for `0/0`, signed infinity
otherwise), modelled as `none`. -/
noncomputable def tdiv (x y : ℝ) : Option ℝ :=
  if y = 0 then none else some (x / y)

/-- Running the two derivation lines of the notebook as Python executes them.
`torch` float-tensor division raises no exception for a zero divisor, so the
run always completes normally (`Except.ok`); components that the float
division turns non-finite are `none`. -/
noncomputable def steering_vecRun {n : ℕ} (act_a act_b : List (Fin n → ℝ)) :
    Except Unit (Fin n → Option ℝ) :=
  Except.ok
    (fun i =>
      tdiv ((lastSlice act_a - lastSlice act_b) i)
        (l2norm (lastSlice act_a - lastSlice act_b)))

theorem l2norm_nonneg {n : ℕ} (v : Fin n → ℝ) : 0 ≤ l2norm v :=
  Real.sqrt_nonneg _

theorem sumSq_nonneg {n : ℕ} (v : Fin n → ℝ) : (0 : ℝ) ≤ ∑ i, v i ^ 2 :=
  Finset.sum_nonneg fun i _ => sq_nonneg (v i)

theorem sq_l2norm {n : ℕ} (v : Fin n → ℝ) : l2norm v ^ 2 = ∑ i, v i ^ 2 :=
  Real.sq_sqrt (sumSq_nonneg v)

theorem l2norm_eq_zero_iff {n : ℕ} (v : Fin n → ℝ) : l2norm v = 0 ↔ v = 0 := by
  unfold l2norm
  rw [Real.sqrt_eq_zero (sumSq_nonneg v)]
  constructor
  · intro h
    funext i
    have hz := (Finset.sum_eq_zero_iff_of_nonneg
      (fun j _ => sq_nonneg (v j))).mp h i (Finset.mem_univ i)
    exact pow_eq_zero_iff (two_ne_zero) |>.mp hz
  · intro h
    subst h
    simp

end Deriv

namespace Ex

/-! Small concrete instances used to witness the claim theorems on concrete
inputs (hidden dimension 1, opaque remainder `Unit`). -/

def exModel : PyHooks.SplitModel 1 Unit :=
  ⟨fun t => fun _ => (t.length : ℤ), fun v => ((fun _ => v 0 + 1), ()), fun v => [v 0, 0]⟩

def exTL : TL.TLModel 1 :=
  ⟨fun t => fun _ => (t.length : ℤ), fun v => [v 0]⟩

def exC : BiasEdit.Conv1D 1 1 :=
  ⟨Matrix.of fun _ => fun _ => (1 : ℤ), fun _ => 0⟩

def exAttn : BiasEdit.AttnModel 1 1 :=
  ⟨fun t => fun _ => (t.length : ℤ),
   ⟨Matrix.of fun _ => fun _ => (2 : ℤ), fun _ => 3⟩,
   fun v => [v 0]⟩

def exVec : Vec 1 := fun _ => 2

def exSv1 : Fin 1 → ℤ := fun _ => 1

def exOrg : Fin 1 → ℤ := fun _ => 3

def exX : Vec 1 := fun _ => 7

def exWrap : Wrapper.WrappedModule 1 Unit := Wrapper.wrapModule exModel.blk

def exWrapS : Wrapper.WrappedModule 1 Unit := ⟨exModel.blk, none, some exVec⟩

def exWrapZ : Wrapper.WrappedModule 1 Unit := ⟨exModel.blk, none, some ((0 : ℤ) • exVec)⟩

def vOne : Fin 1 → ℝ := fun _ => 1

def aR : List (Fin 1 → ℝ) := [fun _ => 2, fun _ => 5]

def bR : List (Fin 1 → ℝ) := [fun _ => 4]

end Ex

/-! ## Claim theorems -/

/-- Claim C7: when the interception point's output is a composite (a tuple
whose first element is the activation tensor), the injection replaces only the
first element with `first + steering vector` and re-pairs it with the untouched
remainder of the original tuple; the cache is untouched, and the wrapper
mechanism likewise steers only the first component of the returned tuple. -/
theorem act_add_preserves_packaging {n : ℕ} {A : Type} (sv : Vec n) (x : Vec n)
    (rest : A) (cache : List (Vec n)) (w : Wrapper.WrappedModule n A) (y : Vec n)
    (hw : w.steering_vec = some sv) :
    (PyHooks.act_add sv (x, rest) cache).1 = some (x + sv, rest) ∧
    (PyHooks.act_add sv (x, rest) cache).2 = cache ∧
    (PyHooks.applyHook (some (PyHooks.act_add sv)) (x, rest) cache).1 = (x + sv, rest) ∧
    (w.forward y).2 = ((w.module y).1 + sv, (w.module y).2) := by
  refine ⟨rfl, rfl, rfl, ?_⟩
  simp [Wrapper.WrappedModule.forward, hw]

theorem act_add_preserves_packaging_witness :
    (PyHooks.act_add Ex.exVec (Ex.exX, ()) []).1 = some (Ex.exX + Ex.exVec, ()) ∧
    (PyHooks.act_add Ex.exVec (Ex.exX, ()) []).2 = [] ∧
    (PyHooks.applyHook (some (PyHooks.act_add Ex.exVec)) (Ex.exX, ()) []).1 =
      (Ex.exX + Ex.exVec, ()) ∧
    (Ex.exWrapS.forward Ex.exX).2 =
      ((Ex.exWrapS.module Ex.exX).1 + Ex.exVec, (Ex.exWrapS.module Ex.exX).2) :=
  act_add_preserves_packaging Ex.exVec Ex.exX () [] Ex.exWrapS Ex.exX rfl

/-- Claim C8: the capture mechanisms are purely observational: with
`cache_hook` attached, the logits of any forward pass (and hence of the whole
greedy generation) equal those with no hook attached, and the hook only appends
the intercepted activation tensor to the cache; a baukit `Trace` without
`edit_output` likewise propagates the unmodified value while retaining exactly
the intercepted output. -/
theorem capture_observational {n : ℕ} {A : Type} {nIn nOut : ℕ}
    (M : PyHooks.SplitModel n A) (Mat : BiasEdit.AttnModel nIn nOut)
    (toks : List ℕ) (cache : List (Vec n)) (k : ℕ) :
    (PyHooks.forwardH M (some PyHooks.cache_hook) cache toks).1 =
      (PyHooks.forwardH M none cache toks).1 ∧
    (PyHooks.forwardH M (some PyHooks.cache_hook) cache toks).2 =
      cache ++ [(M.blk (M.pre toks)).1] ∧
    PyHooks.generate M (some PyHooks.cache_hook) toks k =
      PyHooks.generate M none toks k ∧
    (Mat.fwdLN none toks).1 = Mat.post (Mat.cattn.call (Mat.pre toks)) ∧
    (Mat.fwdLN none toks).2 = Mat.pre toks := by
  refine ⟨rfl, rfl, ?_, rfl, rfl⟩
  exact PyHooks.generate_passive M PyHooks.cache_hook (fun out c => rfl) toks k

/-- Claim C10: `WrappedModule` retains only the most recent forward
evaluation: each call overwrites the stored `output` with the wrapped
submodule's unmodified result (the wrapped module and the steering setting are
untouched); with a steering vector set, the returned value is the steered tuple
while the stored value stays unsteered; after two sequential forward passes
only the second pass's activation is stored. -/
theorem wrapped_retains_latest {n : ℕ} {A : Type} (w : Wrapper.WrappedModule n A)
    (x1 x2 : Vec n) :
    ((w.forward x1).1).output = some (w.module x1) ∧
    ((w.forward x1).1).module = w.module ∧
    ((w.forward x1).1).steering_vec = w.steering_vec ∧
    ((((w.forward x1).1).forward x2).1).output = some (w.module x2) ∧
    (∀ sv, w.steering_vec = some sv →
      (w.forward x1).2 = ((w.module x1).1 + sv, (w.module x1).2)) ∧
    (w.steering_vec = none → (w.forward x1).2 = w.module x1) := by
  cases hs : w.steering_vec <;>
    simp [Wrapper.WrappedModule.forward, hs]

theorem wrapped_retains_latest_witness :
    (Ex.exWrapS.forward Ex.exX).2 =
      ((Ex.exWrapS.module Ex.exX).1 + Ex.exVec, (Ex.exWrapS.module Ex.exX).2) :=
  (wrapped_retains_latest Ex.exWrapS Ex.exX Ex.exX).2.2.2.2.1 Ex.exVec rfl

/-- A wrapper whose steering vector is set to the zero vector generates the
same tokens as the bare model. -/
theorem generateW_zero_tokens {n : ℕ} {A : Type} (M : PyHooks.SplitModel n A) :
    ∀ (k : ℕ) (w : Wrapper.WrappedModule n A) (toks : List ℕ),
      w.module = M.blk → w.steering_vec = some 0 →
      (Wrapper.generateW M w toks k).2 = PyHooks.generate M none toks k := by
  intro k
  induction k with
  | zero => intro w toks _ _; rfl
  | succ k ih =>
      intro w toks hm hs
      have hstep : Wrapper.genStepW M (w, toks) =
          ({ w with output := some (w.module (M.pre toks)) },
            toks ++ [argmaxIdx (M.post (M.blk (M.pre toks)).1)]) := by
        simp [Wrapper.genStepW, Wrapper.forwardW, Wrapper.WrappedModule.forward, hs, hm]
      calc (Wrapper.generateW M w toks (k + 1)).2
          = (iterSteps (Wrapper.genStepW M) (Wrapper.genStepW M (w, toks)) k).2 := rfl
        _ = (Wrapper.generateW M { w with output := some (w.module (M.pre toks)) }
              (toks ++ [argmaxIdx (M.post (M.blk (M.pre toks)).1)]) k).2 := by
            rw [hstep]; rfl
        _ = PyHooks.generate M none
              (toks ++ [argmaxIdx (M.post (M.blk (M.pre toks)).1)]) k :=
            ih _ _ hm hs
        _ = PyHooks.generate M none toks (k + 1) := rfl

/-- Claim C5: injecting with coefficient zero is a no-op: generation with a
zero-coefficient injection attached (either the `act_add` hook built from
`0 * steering_vec`, or the wrapper with its steering vector set to
`0 * steering_vec`) produces output identical to generation with no
interception attached at all. -/
theorem zero_coeff_noop {n : ℕ} {A : Type} (M : PyHooks.SplitModel n A) (v : Vec n)
    (w : Wrapper.WrappedModule n A) (toks : List ℕ) (k : ℕ)
    (hm : w.module = M.blk) (hs : w.steering_vec = some ((0 : ℤ) • v)) :
    PyHooks.generate M (some (PyHooks.act_add ((0 : ℤ) • v))) toks k =
      PyHooks.generate M none toks k ∧
    (Wrapper.generateW M w toks k).2 = PyHooks.generate M none toks k := by
  constructor
  · exact PyHooks.generate_passive M _ (fun out c => by simp [PyHooks.act_add]) toks k
  · have h0 : w.steering_vec = some 0 := by rw [hs, zero_smul]
    exact generateW_zero_tokens M k w toks hm h0

theorem zero_coeff_noop_witness :
    PyHooks.generate Ex.exModel (some (PyHooks.act_add ((0 : ℤ) • Ex.exVec))) [0] 2 =
      PyHooks.generate Ex.exModel none [0] 2 ∧
    (Wrapper.generateW Ex.exModel Ex.exWrapZ [0] 2).2 =
      PyHooks.generate Ex.exModel none [0] 2 :=
  zero_coeff_noop Ex.exModel Ex.exVec Ex.exWrapZ [0] 2 rfl rfl

/-- Claim C4: after a scoped activation ends — the hook handle removed
(`handle.remove()`), the hooks reset (`model.reset_hooks()`), the wrapper
unwrapped (`model.transformer.h[i] = model.transformer.h[i].module`), or the
saved bias restored (`reset_bias_attn`) — a subsequent generation call with the
same input and decoding parameters reproduces the baseline no-injection output
exactly. -/
theorem deactivation_restores_baseline {n : ℕ} {A : Type} {nIn nOut : ℕ}
    (M : PyHooks.SplitModel n A) (Mtl : TL.TLModel n)
    (Mat : BiasEdit.AttnModel nIn nOut) (f : PyHooks.HookFn n A)
    (s0 : Option (PyHooks.HookFn n A)) (g : TL.TLHook n) (t0 : Option (TL.TLHook n))
    (w : Wrapper.WrappedModule n A) (sv : Fin nIn → ℤ) (org_bias : Fin nOut → ℤ)
    (toks : List ℕ) (k : ℕ)
    (hw : w.module = M.blk) (hb : Mat.cattn.bias = org_bias) :
    PyHooks.generate M (PyHooks.handleRemove (PyHooks.register_forward_hook f s0)) toks k =
      PyHooks.generate M none toks k ∧
    TL.generateTL Mtl (TL.reset_hooks (TL.add_hook g t0)) toks k =
      TL.generateTL Mtl none toks k ∧
    PyHooks.generate { M with blk := w.module } none toks k =
      PyHooks.generate M none toks k ∧
    BiasEdit.generateAttn
        { Mat with cattn :=
            BiasEdit.reset_bias_attn (BiasEdit.change_bias_attn Mat.cattn sv) org_bias }
        toks k =
      BiasEdit.generateAttn Mat toks k := by
  refine ⟨rfl, rfl, ?_, ?_⟩
  · rw [hw]
  · have hc : BiasEdit.reset_bias_attn (BiasEdit.change_bias_attn Mat.cattn sv) org_bias =
        Mat.cattn := by
      rw [← hb]
      rfl
    rw [hc]

theorem deactivation_restores_baseline_witness :
    PyHooks.generate Ex.exModel
        (PyHooks.handleRemove (PyHooks.register_forward_hook PyHooks.cache_hook none)) [0] 2 =
      PyHooks.generate Ex.exModel none [0] 2 ∧
    TL.generateTL Ex.exTL (TL.reset_hooks (TL.add_hook (TL.act_add Ex.exVec) none)) [0] 2 =
      TL.generateTL Ex.exTL none [0] 2 ∧
    PyHooks.generate { Ex.exModel with blk := Ex.exWrap.module } none [0] 2 =
      PyHooks.generate Ex.exModel none [0] 2 ∧
    BiasEdit.generateAttn
        { Ex.exAttn with cattn :=
            (BiasEdit.reset_bias_attn (BiasEdit.change_bias_attn Ex.exAttn.cattn Ex.exSv1)
              Ex.exOrg) }
        [0] 2 =
      BiasEdit.generateAttn Ex.exAttn [0] 2 :=
  deactivation_restores_baseline Ex.exModel Ex.exTL Ex.exAttn PyHooks.cache_hook none
    (TL.act_add Ex.exVec) none Ex.exWrap Ex.exSv1 Ex.exOrg [0] 2 rfl rfl

/-- Claim C3: for the `ln_1 → c_attn` path (whose second stage is exactly
affine, `c_attn(x) = x·W + b`), permanently replacing the bias by
`change_bias_attn` (giving `b + W-applied steering vector`, since the bias at
call time is the original) makes every call of `c_attn` agree with call-time
injection of the same vector at the `ln_1` output, and the two mechanisms
produce identical greedy generation output. -/
theorem bias_edit_equals_injection {nIn nOut : ℕ} (Mat : BiasEdit.AttnModel nIn nOut)
    (sv : Fin nIn → ℤ) (toks : List ℕ) (k : ℕ) :
    (∀ y, (BiasEdit.change_bias_attn Mat.cattn sv).call y = Mat.cattn.call (y + sv)) ∧
    BiasEdit.generateAttn { Mat with cattn := BiasEdit.change_bias_attn Mat.cattn sv }
        toks k =
      BiasEdit.generateAttnInject Mat sv toks k := by
  have key : ∀ y,
      (BiasEdit.change_bias_attn Mat.cattn sv).call y = Mat.cattn.call (y + sv) := by
    intro y
    simp only [BiasEdit.Conv1D.call, BiasEdit.change_bias_attn, Matrix.add_vecMul]
    abel
  refine ⟨key, ?_⟩
  apply generateF_congr
  intro t
  have hk := key (Mat.pre t)
  simp only [BiasEdit.AttnModel.fwdLN, BiasEdit.baukitRetain, BiasEdit.act_add]
  rw [hk]

/-- Claim C9: `change_bias_attn` applies the layer's current affine map to the
steering vector, so the new bias equals `original bias + W·sv` only when the
bias at call time is still the original; calling it twice without an
intervening `reset_bias_attn` compounds the previous edit instead of replacing
it (shown both symbolically and on a concrete instance). -/
theorem change_bias_compounds {nIn nOut : ℕ} (c : BiasEdit.Conv1D nIn nOut)
    (sv sv2 : Fin nIn → ℤ) (org_bias : Fin nOut → ℤ) (hb : c.bias = org_bias) :
    (BiasEdit.change_bias_attn c sv).bias = Matrix.vecMul sv c.weight + org_bias ∧
    (BiasEdit.change_bias_attn (BiasEdit.change_bias_attn c sv) sv2).bias =
      Matrix.vecMul sv2 c.weight + (Matrix.vecMul sv c.weight + org_bias) ∧
    (BiasEdit.change_bias_attn
        (BiasEdit.reset_bias_attn (BiasEdit.change_bias_attn c sv) org_bias) sv2).bias =
      Matrix.vecMul sv2 c.weight + org_bias ∧
    (BiasEdit.change_bias_attn (BiasEdit.change_bias_attn Ex.exC Ex.exSv1) Ex.exSv1).bias ≠
      (BiasEdit.change_bias_attn Ex.exC Ex.exSv1).bias := by
  refine ⟨?_, ?_, ?_, ?_⟩
  · simp [BiasEdit.change_bias_attn, BiasEdit.Conv1D.call, hb]
  · simp [BiasEdit.change_bias_attn, BiasEdit.Conv1D.call, hb]
  · simp [BiasEdit.change_bias_attn, BiasEdit.reset_bias_attn, BiasEdit.Conv1D.call]
  · decide

theorem change_bias_compounds_witness :
    (BiasEdit.change_bias_attn Ex.exC Ex.exSv1).bias =
      Matrix.vecMul Ex.exSv1 Ex.exC.weight + (fun _ => 0) ∧
    (BiasEdit.change_bias_attn (BiasEdit.change_bias_attn Ex.exC Ex.exSv1) Ex.exSv1).bias =
      Matrix.vecMul Ex.exSv1 Ex.exC.weight +
        (Matrix.vecMul Ex.exSv1 Ex.exC.weight + (fun _ => 0)) ∧
    (BiasEdit.change_bias_attn
        (BiasEdit.reset_bias_attn (BiasEdit.change_bias_attn Ex.exC Ex.exSv1) fun _ => 0)
        Ex.exSv1).bias =
      Matrix.vecMul Ex.exSv1 Ex.exC.weight + (fun _ => 0) ∧
    (BiasEdit.change_bias_attn (BiasEdit.change_bias_attn Ex.exC Ex.exSv1) Ex.exSv1).bias ≠
      (BiasEdit.change_bias_attn Ex.exC Ex.exSv1).bias :=
  change_bias_compounds Ex.exC Ex.exSv1 Ex.exSv1 (fun _ => 0) rfl

/-- Claim C1: while an `act_add` injection is attached at the interception
point, the injected addition is applied on every forward evaluation of that
point: a `k`-token greedy generation run performs exactly `k` interception
events, the `i`-th event (in evaluation order) adds the steering vector to the
block output freshly computed from the prefix generated so far, and the token
of step `i` is decoded from that injected value; the analogous per-step
property holds for the TransformerLens `act_add` hook.  The injection is thus
re-applied per call, not a one-time patch. -/
theorem act_add_applied_every_step {n : ℕ} {A : Type} (M : PyHooks.SplitModel n A)
    (Mtl : TL.TLModel n) (sv tv : Vec n) (toks : List ℕ) (k i : ℕ) (hik : i < k) :
    (PyHooks.interceptLog M sv toks k).length = k ∧
    (PyHooks.generate M (some (PyHooks.act_add sv)) toks k).length = toks.length + k ∧
    (PyHooks.interceptLog M sv toks k)[i]? =
      some ((M.blk (M.pre (PyHooks.generate M (some (PyHooks.act_add sv)) toks i)),
        ((M.blk (M.pre (PyHooks.generate M (some (PyHooks.act_add sv)) toks i))).1 + sv,
          (M.blk (M.pre (PyHooks.generate M (some (PyHooks.act_add sv)) toks i))).2))) ∧
    PyHooks.generate M (some (PyHooks.act_add sv)) toks (i + 1) =
      PyHooks.generate M (some (PyHooks.act_add sv)) toks i ++
        [argmaxIdx (M.post
          ((M.blk (M.pre (PyHooks.generate M (some (PyHooks.act_add sv)) toks i))).1 + sv))] ∧
    TL.generateTL Mtl (some (TL.act_add tv)) toks (i + 1) =
      TL.generateTL Mtl (some (TL.act_add tv)) toks i ++
        [argmaxIdx (Mtl.post (Mtl.pre (TL.generateTL Mtl (some (TL.act_add tv)) toks i) + tv))] := by
  refine ⟨?_, ?_, ?_, ?_, ?_⟩
  · exact traceRun_length _ _ k toks
  · exact generateF_length _ k toks
  · exact traceRun_get _ _ k i toks hik
  · exact iterSteps_succ_right _ i toks
  · exact iterSteps_succ_right _ i toks

theorem act_add_applied_every_step_witness :
    (PyHooks.interceptLog Ex.exModel Ex.exVec [0] 1).length = 1 ∧
    (PyHooks.generate Ex.exModel (some (PyHooks.act_add Ex.exVec)) [0] 1).length = 2 ∧
    PyHooks.generate Ex.exModel (some (PyHooks.act_add Ex.exVec)) [0] (0 + 1) =
      PyHooks.generate Ex.exModel (some (PyHooks.act_add Ex.exVec)) [0] 0 ++
        [argmaxIdx (Ex.exModel.post
          ((Ex.exModel.blk (Ex.exModel.pre
            (PyHooks.generate Ex.exModel (some (PyHooks.act_add Ex.exVec)) [0] 0))).1 +
              Ex.exVec))] := by
  have h := act_add_applied_every_step Ex.exModel Ex.exTL Ex.exVec Ex.exVec [0] 1 0
    (by decide)
  exact ⟨h.1, h.2.1, h.2.2.2.1⟩

/-- Claim C2: for two captured activation tensors of the same hidden dimension
(and possibly different sequence lengths) whose last-sequence-position
difference is non-zero, the derived steering vector is the last-position slice
of the first minus that of the second, divided by the Euclidean norm of the
difference, and it has Euclidean norm exactly 1 (the derivation being a pure
function of the two inputs). -/
theorem steering_vec_unit_norm {n : ℕ} (act_a act_b : List (Fin n → ℝ))
    (hd : Deriv.lastSlice act_a - Deriv.lastSlice act_b ≠ 0) :
    Deriv.steering_vec act_a act_b = (fun i =>
      (Deriv.lastSlice act_a - Deriv.lastSlice act_b) i /
        Deriv.l2norm (Deriv.lastSlice act_a - Deriv.lastSlice act_b)) ∧
    Deriv.l2norm (Deriv.steering_vec act_a act_b) = 1 := by
  refine ⟨rfl, ?_⟩
  set d := Deriv.lastSlice act_a - Deriv.lastSlice act_b with hdd
  have hs0 : Deriv.l2norm d ≠ 0 := fun h => hd ((Deriv.l2norm_eq_zero_iff d).mp h)
  have hsum : (∑ j, (d j / Deriv.l2norm d) ^ 2) = 1 := by
    have hdist : (∑ j, (d j / Deriv.l2norm d) ^ 2) =
        (∑ j, d j ^ 2) / Deriv.l2norm d ^ 2 := by
      simp only [div_pow]
      rw [← Finset.sum_div]
    rw [hdist, ← Deriv.sq_l2norm d, div_self (pow_ne_zero 2 hs0)]
  show Real.sqrt (∑ j, (d j / Deriv.l2norm d) ^ 2) = 1
  rw [hsum, Real.sqrt_one]

theorem steering_vec_unit_norm_witness :
    Deriv.l2norm (Deriv.steering_vec Ex.aR Ex.bR) = 1 := by
  have hd : Deriv.lastSlice Ex.aR - Deriv.lastSlice Ex.bR ≠ (0 : Fin 1 → ℝ) := by
    intro h
    have h0 : (5 : ℝ) - 4 = 0 := congrFun h 0
    norm_num at h0
  exact (steering_vec_unit_norm Ex.aR Ex.bR hd).2

/-- Counterexample to claim C6 as stated: with two identical captured
activations the difference has Euclidean norm exactly zero, yet running the
derivation does not fail — `torch` float division by a zero norm raises no
exception, so the run completes normally and returns a tensor (all of whose
components are non-finite). -/
theorem zero_norm_returns_value :
    Deriv.l2norm (Deriv.lastSlice [Ex.vOne] - Deriv.lastSlice [Ex.vOne]) = 0 ∧
    Deriv.steering_vecRun [Ex.vOne] [Ex.vOne] = Except.ok (fun _ => none) := by
  have hn : Deriv.l2norm (Deriv.lastSlice [Ex.vOne] - Deriv.lastSlice [Ex.vOne]) = 0 := by
    rw [sub_self]
    simp [Deriv.l2norm]
  refine ⟨hn, ?_⟩
  have h0 : Deriv.l2norm (0 : Fin 1 → ℝ) = 0 := by simp [Deriv.l2norm]
  unfold Deriv.steering_vecRun
  congr 1
  funext i
  simp [Deriv.tdiv, h0]

/-- Claim C6, amended: if the Euclidean norm of the difference of the two
contrastive activations is exactly zero, the derivation does not raise a fatal
error; the division is performed anyway and silently returns a tensor all of
whose components are non-finite (NaN). -/
theorem steering_run_zero_norm {n : ℕ} (act_a act_b : List (Fin n → ℝ))
    (h : Deriv.l2norm (Deriv.lastSlice act_a - Deriv.lastSlice act_b) = 0) :
    Deriv.steering_vecRun act_a act_b = Except.ok (fun _ => none) := by
  unfold Deriv.steering_vecRun
  congr 1
  funext i
  simp [Deriv.tdiv, h]

theorem steering_run_zero_norm_witness :
    Deriv.steering_vecRun [Ex.vOne] [Ex.vOne] = Except.ok (fun _ => none) := by
  apply steering_run_zero_norm
  rw [sub_self]
  simp [Deriv.l2norm]

end ActSteer
